import Mathlib

/-!
Verification of the image-derived 3D point-cloud synthesis pipeline of
prompt2cad, shallowly embedded from
`src/frontend/src/utils/imageProcessing.js`,
`src/frontend/src/utils/camera.ts` and
`src/frontend/src/components/ImageAnalysisViewer.jsx`.

Pixel bytes are modelled as naturals reduced mod 256 (the JS buffers are
Uint8ClampedArray views), exact fractional arithmetic as rationals, and
the Sobel / density values that involve square roots and exponentials as
real numbers.  JavaScript `Math.round` (round half toward positive
infinity) is modelled by `jsRound`.
-/

namespace Prompt2Cad

/-- JavaScript `Math.round`: rounds half toward positive infinity. -/
def jsRound (q : ℚ) : ℤ := ⌊q + 1/2⌋

/-- A decoded raster image: width, height and the flat interleaved RGBA
byte buffer (row-major, top-left origin), as delivered by `ImageData`. -/
structure RasterImage where
  width : ℕ
  height : ℕ
  data : ℕ → ℕ

/-- Byte read from the RGBA buffer; `ImageData.data` is a
`Uint8ClampedArray`, so every stored byte lies in `[0, 255]`. -/
def RasterImage.px (img : RasterImage) (i : ℕ) : ℕ := img.data i % 256

/-- Alpha byte of pixel `(x, y)`: index `(y*width + x)*4 + 3`
(`imageProcessing.js`, line 213-214). -/
def RasterImage.alphaAt (img : RasterImage) (x y : ℕ) : ℕ :=
  img.px ((y * img.width + x) * 4 + 3)

/-- Bounding box as returned by `getObjectBounds` (`imageProcessing.js`,
lines 223-228).  `width`/`height` are differences `maxX - minX` /
`maxY - minY` and are therefore integers that may be negative. -/
structure Box where
  x : ℤ
  y : ℤ
  width : ℤ
  height : ℤ
deriving DecidableEq, Inhabited

/-- Scan state of the `getObjectBounds` loops: the running
`minX`/`minY`/`maxX`/`maxY` (`imageProcessing.js`, lines 205-208). -/
structure BState where
  minX : ℕ
  minY : ℕ
  maxX : ℕ
  maxY : ℕ
deriving DecidableEq

/-- The pixel coordinates visited by the nested `for` loops of
`getObjectBounds` (outer loop over `y`, inner over `x`). -/
def pixelPairs (w h : ℕ) : List (ℕ × ℕ) :=
  (List.range h).flatMap (fun y => (List.range w).map (fun x => (x, y)))

/-- One step of the `getObjectBounds` scan (`imageProcessing.js`,
lines 211-220): a pixel with alpha > 0 updates the running bounds. -/
def boundsStep (img : RasterImage) (s : BState) (p : ℕ × ℕ) : BState :=
  if 0 < img.alphaAt p.1 p.2 then
    ⟨min s.minX p.1, min s.minY p.2, max s.maxX p.1, max s.maxY p.2⟩
  else s

/-- The pixels of a scan that actually update the bounds: those with
alpha > 0. -/
def hotPixels (img : RasterImage) (l : List (ℕ × ℕ)) : List (ℕ × ℕ) :=
  l.filter (fun p => decide (0 < img.alphaAt p.1 p.2))

/-- `getObjectBounds` (`imageProcessing.js`, lines 203-229): scan all
pixels; `minX`/`minY` start at `width`/`height`, `maxX`/`maxY` at 0; the
returned box has `width = maxX - minX` and `height = maxY - minY`. -/
def getObjectBounds (img : RasterImage) : Box :=
  let s := (pixelPairs img.width img.height).foldl (boundsStep img)
    ⟨img.width, img.height, 0, 0⟩
  ⟨(s.minX : ℤ), (s.minY : ℤ), (s.maxX : ℤ) - (s.minX : ℤ),
    (s.maxY : ℤ) - (s.minY : ℤ)⟩

/-- Result record of `analyzeDimensions` (`imageProcessing.js`,
lines 191-195): width, height, depth only - no confidence field. -/
structure Dims3 where
  width : ℤ
  height : ℤ
  depth : ℤ
deriving DecidableEq

/-- Descending-width comparator used for `sortedByWidth`
(`imageProcessing.js`, line 172: `(a, b) => b.width - a.width`). -/
def byWidthDesc (a b : Box) : Prop := b.width ≤ a.width

instance : DecidableRel byWidthDesc :=
  fun a b => inferInstanceAs (Decidable (b.width ≤ a.width))

instance : IsTotal Box byWidthDesc := ⟨fun a b => le_total b.width a.width⟩

instance : IsTrans Box byWidthDesc := ⟨fun _ _ _ h h' => le_trans h' h⟩

/-- Descending-height comparator used for `sortedByHeight`
(`imageProcessing.js`, line 173: `(a, b) => b.height - a.height`). -/
def byHeightDesc (a b : Box) : Prop := b.height ≤ a.height

instance : DecidableRel byHeightDesc :=
  fun a b => inferInstanceAs (Decidable (b.height ≤ a.height))

instance : IsTotal Box byHeightDesc := ⟨fun a b => le_total b.height a.height⟩

instance : IsTrans Box byHeightDesc := ⟨fun _ _ _ h h' => le_trans h' h⟩

/-- The valid boxes kept by `analyzeDimensions` (`imageProcessing.js`,
lines 162-164): boxes with `width > 0 && height > 0`. -/
def validBoxesOf (masks : List RasterImage) : List Box :=
  (masks.map getObjectBounds).filter (fun b => decide (0 < b.width ∧ 0 < b.height))

/-- `analyzeDimensions` (`imageProcessing.js`, lines 155-196): map each
mask to its bounds, filter out non-valid boxes, fall back to
`{width: 100, height: 80, depth: 50}` when none remain, otherwise take
the largest width and height, estimate depth as the second-largest width
(or `width * 0.8` with a single valid box), and `Math.round` the three
results. -/
def analyzeDimensions (masks : List RasterImage) : Dims3 :=
  let validBoxes := validBoxesOf masks
  if validBoxes = [] then ⟨100, 80, 50⟩
  else
    let sortedByWidth := validBoxes.insertionSort byWidthDesc
    let sortedByHeight := validBoxes.insertionSort byHeightDesc
    let w := (sortedByWidth.getD 0 default).width
    let h := (sortedByHeight.getD 0 default).height
    let d : ℚ := if 1 < sortedByWidth.length
      then ((sortedByWidth.getD 1 default).width : ℚ)
      else (w : ℚ) * 0.8
    ⟨jsRound (w : ℚ), jsRound (h : ℚ), jsRound d⟩

/-- Per-view dimensions extracted in `estimateDimensions` (`camera.ts`,
lines 207-217): reference dimensions of the detected class together with
the detection confidence. -/
structure ViewDims where
  width : ℚ
  height : ℚ
  depth : ℚ
  confidence : ℚ
deriving DecidableEq

/-- The `Dimensions` interface of `camera.ts` (lines 100-105) as produced
by `estimateDimensions`: `Math.round`-ed millimeter values plus a
confidence. -/
structure Dimensions where
  width : ℤ
  height : ℤ
  depth : ℤ
  confidence : ℚ
deriving DecidableEq

/-- The `REFERENCE_OBJECTS` table (`camera.ts`, lines 108-121):
hand-authored (width, height, depth) in millimeters per class name. -/
def REFERENCE_OBJECTS : String → Option (ℚ × ℚ × ℚ)
  | "cell phone" => some (70, 150, 8)
  | "remote" => some (50, 160, 20)
  | "mouse" => some (60, 110, 35)
  | "cup" => some (80, 95, 80)
  | "bottle" => some (70, 220, 70)
  | "keyboard" => some (350, 150, 20)
  | "book" => some (170, 240, 25)
  | "laptop" => some (330, 230, 20)
  | "monitor" => some (500, 340, 50)
  | "tv" => some (900, 550, 50)
  | "credit card" => some (85.6, 53.98, 0.76)
  | "soda can" => some (66, 123, 66)
  | _ => none

/-- The measurement-combination step of `estimateDimensions`
(`camera.ts`, lines 219-233): `totalWeight` is the reduce-sum of the
confidences; each axis is `Math.round` of the reduce-sum of
`dim * confidence` divided by `totalWeight`; the combined confidence is
`Math.min(1.0, reduce(Math.max, 0))` over the view confidences. -/
def combineDimensions (allDimensions : List ViewDims) : Dimensions :=
  let totalWeight := allDimensions.foldl (fun sum d => sum + d.confidence) 0
  { width := jsRound (allDimensions.foldl (fun sum d => sum + d.width * d.confidence) 0
      / totalWeight)
    height := jsRound (allDimensions.foldl (fun sum d => sum + d.height * d.confidence) 0
      / totalWeight)
    depth := jsRound (allDimensions.foldl (fun sum d => sum + d.depth * d.confidence) 0
      / totalWeight)
    confidence := min 1 (allDimensions.foldl (fun m d => max m d.confidence) 0) }

/-- Modelled from the amended spec wording of section 4.5: each axis is
the confidence-weighted mean, written with `List.sum` over the view
list, rounded with `Math.round`; the combined confidence is the maximum
view confidence (maximum of the confidence list and 0), capped at 1. -/
def combineDimensionsSpec (ds : List ViewDims) : Dimensions :=
  let wsum := (ds.map (fun d => d.confidence)).sum
  { width := jsRound ((ds.map (fun d => d.width * d.confidence)).sum / wsum)
    height := jsRound ((ds.map (fun d => d.height * d.confidence)).sum / wsum)
    depth := jsRound ((ds.map (fun d => d.depth * d.confidence)).sum / wsum)
    confidence := min 1 ((ds.map (fun d => d.confidence)).foldl max 0) }

/-- `getDefaultDimensions` (`camera.ts`, lines 254-261): the fixed
fallback returned when `estimateDimensions` catches an error. -/
def getDefaultDimensions : Dimensions := ⟨120, 80, 50, 0.5⟩

/-- Maximum of a list of integers (and 0): the spec's "largest value
across all views" for the positive widths/heights being combined. -/
def listMax (l : List ℤ) : ℤ := l.foldr max 0

/-- The spec's "second-largest width across views": the maximum after
removing one occurrence of the maximum. -/
def secondMax (l : List ℤ) : ℤ := listMax (l.erase (listMax l))

/-- Grayscale conversion of `detectEdges` (`imageProcessing.js`,
lines 82-87): `Math.round(0.299 r + 0.587 g + 0.114 b)`; the result lies
in `[0, 255]`, so the `Uint8Array` store keeps it unchanged. -/
def grayAt (img : RasterImage) (x y : ℕ) : ℤ :=
  jsRound (0.299 * (img.px (4 * (y * img.width + x)) : ℚ)
    + 0.587 * (img.px (4 * (y * img.width + x) + 1) : ℚ)
    + 0.114 * (img.px (4 * (y * img.width + x) + 2) : ℚ))

/-- Horizontal Sobel kernel at an interior pixel (`imageProcessing.js`,
lines 95-101). -/
def gxAt (img : RasterImage) (x y : ℕ) : ℤ :=
  -grayAt img (x - 1) (y - 1) + -(2 * grayAt img (x - 1) y)
    + -grayAt img (x - 1) (y + 1) + grayAt img (x + 1) (y - 1)
    + 2 * grayAt img (x + 1) y + grayAt img (x + 1) (y + 1)

/-- Vertical Sobel kernel at an interior pixel (`imageProcessing.js`,
lines 103-109). -/
def gyAt (img : RasterImage) (x y : ℕ) : ℤ :=
  -grayAt img (x - 1) (y - 1) + -(2 * grayAt img x (y - 1))
    + -grayAt img (x + 1) (y - 1) + grayAt img (x - 1) (y + 1)
    + 2 * grayAt img x (y + 1) + grayAt img (x + 1) (y + 1)

/-- Edge intensity at pixel `(x, y)` (`imageProcessing.js`,
lines 90-114): the loops write `sqrt(gx^2 + gy^2) / 1448` only at
interior pixels (`1 <= x < width-1`, `1 <= y < height-1`); every other
entry keeps the `Float32Array` initial value 0. -/
noncomputable def edgeAt (img : RasterImage) (x y : ℕ) : ℝ :=
  if 1 ≤ x ∧ x + 1 < img.width ∧ 1 ≤ y ∧ y + 1 < img.height then
    Real.sqrt ((gxAt img x y ^ 2 + gyAt img x y ^ 2 : ℤ) : ℝ) / 1448
  else 0

/-- Flat access into the edge map: entry `i` of the row-major
`Float32Array`. -/
noncomputable def edgeAtIdx (img : RasterImage) (i : ℕ) : ℝ :=
  edgeAt img (i % img.width) (i / img.width)

/-- `detectEdges` (`imageProcessing.js`, lines 76-117): the
`Float32Array(width * height)` of edge intensities.  The function is
total: it succeeds on every input image. -/
noncomputable def detectEdges (img : RasterImage) : List ℝ :=
  (List.range (img.width * img.height)).map (fun i => edgeAtIdx img i)

/-- A feature point `[x, y, confidence]` as pushed by
`extractFeaturePoints` (`imageProcessing.js`, line 275): `x` and `y` are
raw pixel coordinates, the confidence is the edge response there. -/
structure FeaturePoint where
  x : ℚ
  y : ℚ
  conf : ℝ

/-- Descending-confidence comparator of the final feature sort
(`imageProcessing.js`, line 282: `(a, b) => b[2] - a[2]`). -/
def byConfDesc (a b : FeaturePoint) : Prop := b.conf ≤ a.conf

noncomputable instance : DecidableRel byConfDesc :=
  fun a b => inferInstanceAs (Decidable (b.conf ≤ a.conf))

instance : IsTotal FeaturePoint byConfDesc := ⟨fun a b => le_total b.conf a.conf⟩

instance : IsTrans FeaturePoint byConfDesc := ⟨fun _ _ _ h h' => le_trans h' h⟩

/-- The feature-sampling window half-size (`imageProcessing.js`,
line 249). -/
def windowSize : ℕ := 5

/-- The sampling stride (`imageProcessing.js`, line 248):
`max(1, floor(width * height / maxPoints / 10))`. -/
def strideOf (img : RasterImage) (maxPoints : ℕ) : ℕ :=
  max 1 (img.width * img.height / (maxPoints * 10))

/-- Values visited by a loop `for (v = start; v < stop; v += stride)`. -/
def strideRange (start stop stride : ℕ) : List ℕ :=
  (List.range ((stop - start + stride - 1) / stride)).map (fun k => start + k * stride)

/-- Local-maximum test of `extractFeaturePoints` (`imageProcessing.js`,
lines 257-272): no in-bounds neighbor of flat index
`(y+dy)*width + (x+dx)` within the window has a strictly greater edge
response than the candidate. -/
noncomputable def isLocalMax (img : RasterImage) (x y : ℕ) : Bool :=
  (List.range (2 * windowSize + 1)).all fun dyk =>
    (List.range (2 * windowSize + 1)).all fun dxk =>
      let dy : ℤ := (dyk : ℤ) - windowSize
      let dx : ℤ := (dxk : ℤ) - windowSize
      if dx = 0 ∧ dy = 0 then true
      else
        let n : ℤ := ((y : ℤ) + dy) * img.width + ((x : ℤ) + dx)
        if 0 ≤ n ∧ n < (img.width * img.height : ℤ) then
          decide (¬ edgeAtIdx img n.toNat > edgeAtIdx img (y * img.width + x))
        else true

/-- Candidate features collected by the strided double loop of
`extractFeaturePoints` (`imageProcessing.js`, lines 251-279): sampled
pixels outside a `windowSize` border whose edge response exceeds 0.1 and
which are local maxima. -/
noncomputable def featureCandidates (img : RasterImage) (maxPoints : ℕ) : List FeaturePoint :=
  let stride := strideOf img maxPoints
  (strideRange windowSize (img.height - windowSize) stride).flatMap fun y =>
    (strideRange windowSize (img.width - windowSize) stride).filterMap fun x =>
      if edgeAtIdx img (y * img.width + x) > 0.1 ∧ isLocalMax img x y = true then
        some ⟨(x : ℚ), (y : ℚ), edgeAtIdx img (y * img.width + x)⟩
      else none

/-- `extractFeaturePoints` (`imageProcessing.js`, lines 237-284): the
candidates, sorted by descending confidence and truncated to
`maxPoints`. -/
noncomputable def extractFeaturePoints (img : RasterImage) (maxPoints : ℕ) : List FeaturePoint :=
  ((featureCandidates img maxPoints).insertionSort byConfDesc).take maxPoints

/-- The density-grid resolution (`imageProcessing.js`, line 311). -/
def gridSize : ℕ := 20

/-- The target point-cloud size K (`imageProcessing.js`, line 295). -/
def pointCount : ℕ := 5000

/-- The feature pool of `generatePointCloud` (`imageProcessing.js`,
lines 299-308): per-image features (800 per image) concatenated across
all views, with the raw pixel coordinates passed through unchanged. -/
noncomputable def pooledFeatures (images : List RasterImage) : List FeaturePoint :=
  images.flatMap (fun im => extractFeaturePoints im 800)

/-- The strategy choice of `generatePointCloud` (`imageProcessing.js`,
line 318): the surface-biased branch is taken exactly when
`surfacePoints.length > pointCount * 0.5`, else the feature-guided
fallback runs. -/
def usesSurfaceStrategy (surfacePoints : List (ℝ × ℝ × ℝ)) : Prop :=
  (surfacePoints.length : ℚ) > (pointCount : ℚ) * 0.5

instance : ∀ sps, Decidable (usesSurfaceStrategy sps) :=
  fun sps => inferInstanceAs (Decidable ((pointCount : ℚ) * 0.5 < (sps.length : ℚ)))

/-- Coordinate clamping and grid indexing of `createDensityGrid`
(`imageProcessing.js`, lines 407-413): clamp into `[0, 1]`, then
`Math.min(Math.floor(n * gridSize), gridSize - 1)`. -/
def densityIx (coord : ℚ) (gs : ℕ) : ℤ :=
  min ⌊min (max coord 0) 1 * (gs : ℚ)⌋ ((gs : ℤ) - 1)

/-- The `confidence = feature[2] || 1.0` read (`imageProcessing.js`,
lines 416 and 543): JavaScript `||` replaces a zero confidence by 1. -/
noncomputable def confW (f : FeaturePoint) : ℝ := if f.conf = 0 then 1 else f.conf

/-- Contribution of one feature to cell `(x, y, z)` of the density grid
(`imageProcessing.js`, lines 418-437): the cell receives
`confidence * exp(-dist * 0.5)` when it lies in the radius-2 cube around
`(ix, iy, floor(gridSize/2))` and inside the grid. -/
noncomputable def splatContribution (gs : ℕ) (f : FeaturePoint) (x y z : ℕ) : ℝ :=
  let dx : ℤ := (x : ℤ) - densityIx f.x gs
  let dy : ℤ := (y : ℤ) - densityIx f.y gs
  let dz : ℤ := (z : ℤ) - (gs / 2 : ℕ)
  if |dx| ≤ 2 ∧ |dy| ≤ 2 ∧ |dz| ≤ 2 ∧ x < gs ∧ y < gs ∧ z < gs then
    confW f * Real.exp (-Real.sqrt ((dx ^ 2 + dy ^ 2 + dz ^ 2 : ℤ) : ℝ) * 0.5)
  else 0

/-- The splatting phase of `createDensityGrid` (`imageProcessing.js`,
lines 395-438): starting from the zero grid, every feature additively
accumulates its contribution into each cell. -/
noncomputable def splatGrid (gs : ℕ) (features : List FeaturePoint) (x y z : ℕ) : ℝ :=
  (features.map (fun f => splatContribution gs f x y z)).sum

/-- The 27-cell neighborhood sum of the smoothing pass
(`imageProcessing.js`, lines 504-511). -/
noncomputable def neighborhoodSum (g : ℕ → ℕ → ℕ → ℝ) (x y z : ℕ) : ℝ :=
  ∑ i ∈ Finset.range 3, ∑ j ∈ Finset.range 3, ∑ k ∈ Finset.range 3,
    g (x + i - 1) (y + j - 1) (z + k - 1)

/-- `applyVolumetricConstraints` (`imageProcessing.js`, lines 492-526):
one smoothing pass replacing every interior cell by
`0.7 * original + 0.3 * (27-cell mean)`, reading from the unmodified
copy; border cells are copied unchanged. -/
noncomputable def applyVolumetricConstraints (g : ℕ → ℕ → ℕ → ℝ) (gs : ℕ)
    (x y z : ℕ) : ℝ :=
  if 1 ≤ x ∧ x + 1 < gs ∧ 1 ≤ y ∧ y + 1 < gs ∧ 1 ≤ z ∧ z + 1 < gs then
    0.7 * g x y z + 0.3 * (neighborhoodSum g x y z / 27)
  else g x y z

/-- `createDensityGrid` (`imageProcessing.js`, lines 395-444): splatting
followed by the single smoothing pass. -/
noncomputable def createDensityGrid (gs : ℕ) (features : List FeaturePoint)
    (x y z : ℕ) : ℝ :=
  applyVolumetricConstraints (splatGrid gs features) gs x y z

/-- Histogram bin of `createFeatureDensity` (`imageProcessing.js`,
lines 541-542): `Math.min(Math.floor(normalized * bins), bins - 1)`,
where the raw feature coordinate is used as `normalized`. -/
def featureBin (coord : ℚ) (bins : ℕ) : ℤ :=
  min ⌊coord * (bins : ℚ)⌋ ((bins : ℤ) - 1)

/- Test fixtures used by counterexamples and witnesses. -/

/-- A 1 by 1 fully transparent mask. -/
def imgT1 : RasterImage := ⟨1, 1, fun _ => 0⟩

/-- A 2 by 2 fully transparent mask. -/
def imgT2 : RasterImage := ⟨2, 2, fun _ => 0⟩

/-- A 2 by 2 mask whose only non-transparent pixel is (0, 0)
(alpha byte index 3). -/
def img1px : RasterImage := ⟨2, 2, fun i => if i = 3 then 255 else 0⟩

/-- A 4 by 4 mask with non-transparent pixels (0, 0) and (3, 3)
(alpha indices 3 and 63): its bounding box is 3 wide and 3 high. -/
def imgSq : RasterImage := ⟨4, 4, fun i => if i = 3 ∨ i = 63 then 255 else 0⟩

/-- A 6 by 3 mask with non-transparent pixels (0, 0) and (5, 0)
(alpha indices 3 and 23): its bounding box is 5 wide and 0 high, so it
is filtered out as invalid while having the largest width. -/
def imgRow : RasterImage := ⟨6, 3, fun i => if i = 3 ∨ i = 23 then 255 else 0⟩

/-- A 3 by 3 all-black image: the smallest non-degenerate edge-detector
input. -/
def img3 : RasterImage := ⟨3, 3, fun _ => 0⟩

/-- A one-element feature list with non-negative confidence. -/
noncomputable def feats9 : List FeaturePoint := [⟨2, 3, 1/2⟩]

/-! Helper lemmas. -/

/-- Math.round of an integer value is that integer. -/
theorem jsRound_intCast (n : ℤ) : jsRound (n : ℚ) = n := by
  unfold jsRound
  rw [add_comm, Int.floor_add_int]
  norm_num

/-- The `getObjectBounds` scan computes, field by field, a min/max fold
over the pixels with positive alpha. -/
theorem foldl_boundsStep_eq (img : RasterImage) (l : List (ℕ × ℕ)) :
    ∀ s : BState,
      l.foldl (boundsStep img) s =
        ⟨(hotPixels img l).foldl (fun m p => min m p.1) s.minX,
         (hotPixels img l).foldl (fun m p => min m p.2) s.minY,
         (hotPixels img l).foldl (fun m p => max m p.1) s.maxX,
         (hotPixels img l).foldl (fun m p => max m p.2) s.maxY⟩ := by
  induction l with
  | nil => intro s; rfl
  | cons p t ih =>
    intro s
    by_cases h : 0 < img.alphaAt p.1 p.2
    · rw [List.foldl_cons,
        show boundsStep img s p
            = ⟨min s.minX p.1, min s.minY p.2, max s.maxX p.1, max s.maxY p.2⟩ from by
          simp [boundsStep, h],
        ih]
      simp [hotPixels, List.filter_cons, h]
    · rw [List.foldl_cons, show boundsStep img s p = s from by simp [boundsStep, h], ih]
      simp [hotPixels, List.filter_cons, h]

/-- Membership in the scanned pixel list. -/
theorem mem_pixelPairs {w h : ℕ} {p : ℕ × ℕ} :
    p ∈ pixelPairs w h ↔ p.1 < w ∧ p.2 < h := by
  obtain ⟨a, b⟩ := p
  simp only [pixelPairs, List.mem_flatMap, List.mem_map, List.mem_range, Prod.mk.injEq]
  constructor
  · rintro ⟨y, hy, x, hx, rfl, rfl⟩
    exact ⟨hx, hy⟩
  · rintro ⟨ha, hb⟩
    exact ⟨b, hb, a, ha, rfl, rfl⟩

/-- Filtering for equality with a fixed element yields that element,
repeated as many times as it occurs. -/
theorem filter_eq_replicate_count {α : Type} [BEq α] [LawfulBEq α] (a : α) (l : List α) :
    l.filter (fun b => b == a) = List.replicate (l.count a) a := by
  induction l with
  | nil => rfl
  | cons b t ih =>
    by_cases hb : b = a
    · subst hb
      simp [List.filter_cons, List.count_cons, ih, List.replicate_succ]
    · simp [List.filter_cons, List.count_cons, hb, ih]

/-- Folding `min` over a nonempty constant list. -/
theorem foldl_min_replicate {α : Type} (f : α → ℕ) (a : α) :
    ∀ (k : ℕ) (b : ℕ),
      (List.replicate (k + 1) a).foldl (fun m p => min m (f p)) b = min b (f a) := by
  intro k
  induction k with
  | zero => intro b; simp
  | succ n ih =>
    intro b
    rw [List.replicate_succ, List.foldl_cons, ih, min_assoc, min_self]

/-- Folding `max` over a nonempty constant list. -/
theorem foldl_max_replicate {α : Type} (f : α → ℕ) (a : α) :
    ∀ (k : ℕ) (b : ℕ),
      (List.replicate (k + 1) a).foldl (fun m p => max m (f p)) b = max b (f a) := by
  intro k
  induction k with
  | zero => intro b; simp
  | succ n ih =>
    intro b
    rw [List.replicate_succ, List.foldl_cons, ih, max_assoc, max_self]

/-! Claim C1. -/

/-- Claim C1, counterexample: on a batch with zero valid boxes the
dimension estimator `analyzeDimensions` does not return width 120 (it
returns width 100, with no confidence field at all). -/
theorem claim_C1_counterexample : (analyzeDimensions [imgT2]).width ≠ 120 := by
  rw [show analyzeDimensions [imgT2] = ⟨100, 80, 50⟩ from by
    simp [analyzeDimensions, show validBoxesOf [imgT2] = [] from by decide]]
  decide

/-- Claim C1 (amended): with zero valid (non-empty) boxes across all
views, `analyzeDimensions` returns exactly the fixed default
`{width: 100, height: 80, depth: 50}` (a record without a confidence
field) and never propagates an error (the embedded function is total);
the default `{width: 120, height: 80, depth: 50, confidence: 0.5}` is
the value of `getDefaultDimensions` in `camera.ts`, which
`estimateDimensions` returns only when an error was thrown. -/
theorem claim_C1 :
    (∀ masks, validBoxesOf masks = [] → analyzeDimensions masks = ⟨100, 80, 50⟩)
      ∧ getDefaultDimensions = ⟨120, 80, 50, 0.5⟩ := by
  refine ⟨fun masks h => ?_, rfl⟩
  simp [analyzeDimensions, h]

/-- Claim C1, witness: a batch consisting of one fully transparent
2 by 2 mask has zero valid boxes and gets the default dimensions. -/
theorem claim_C1_witness :
    validBoxesOf [imgT2] = [] ∧ analyzeDimensions [imgT2] = ⟨100, 80, 50⟩ :=
  ⟨by decide, claim_C1.1 [imgT2] (by decide)⟩

/-! Claim C2. -/

/-- Claim C2, counterexample: on a 1 by 1 all-transparent mask,
`getObjectBounds` returns width -1 and height -1 (namely
`0 - width` and `0 - height`), not the empty box width 0, height 0;
in particular the returned width is negative. -/
theorem claim_C2_counterexample :
    getObjectBounds imgT1 = ⟨1, 1, -1, -1⟩ ∧ (getObjectBounds imgT1).width < 0 := by
  constructor <;> decide

/-- Claim C2 (amended): on a mask in which no pixel has alpha > 0,
`getObjectBounds` returns `x = width`, `y = height`,
`width = -imageWidth` and `height = -imageHeight`: the returned width
and height are non-positive (negative for any non-degenerate image), not
zero, and are excluded by the callers' `width > 0 && height > 0`
validity filter. -/
theorem claim_C2 (img : RasterImage)
    (h : ∀ x, x < img.width → ∀ y, y < img.height → img.alphaAt x y = 0) :
    getObjectBounds img
      = ⟨(img.width : ℤ), (img.height : ℤ), -(img.width : ℤ), -(img.height : ℤ)⟩ := by
  unfold getObjectBounds
  rw [foldl_boundsStep_eq]
  have hh : hotPixels img (pixelPairs img.width img.height) = [] := by
    rw [hotPixels, List.filter_eq_nil_iff]
    intro p hp
    obtain ⟨h1, h2⟩ := mem_pixelPairs.mp hp
    simp [h p.1 h1 p.2 h2]
  rw [hh]
  simp

/-- Claim C2, witness: the 1 by 1 all-transparent mask. -/
theorem claim_C2_witness :
    (∀ x, x < imgT1.width → ∀ y, y < imgT1.height → imgT1.alphaAt x y = 0)
      ∧ getObjectBounds imgT1 = ⟨1, 1, -1, -1⟩ :=
  ⟨by decide, claim_C2 imgT1 (by decide)⟩

/-! Claim C10. -/

/-- Claim C10 (confirmed): on a mask with exactly one pixel of positive
alpha, `getObjectBounds` returns a box at that pixel with width 0 and
height 0 (`maxX - minX` and `maxY - minY`, one less than the pixel
span), and `analyzeDimensions` filters that view out as invalid, landing
in the same nothing-detected default as when no view is valid. -/
theorem claim_C10 (img : RasterImage) (px py : ℕ)
    (hx : px < img.width) (hy : py < img.height)
    (h : ∀ x, x < img.width → ∀ y, y < img.height →
      (0 < img.alphaAt x y ↔ (x = px ∧ y = py))) :
    getObjectBounds img = ⟨(px : ℤ), (py : ℤ), 0, 0⟩
      ∧ analyzeDimensions [img] = ⟨100, 80, 50⟩ := by
  have hbox : getObjectBounds img = ⟨(px : ℤ), (py : ℤ), 0, 0⟩ := by
    unfold getObjectBounds
    rw [foldl_boundsStep_eq]
    have hfil : hotPixels img (pixelPairs img.width img.height)
        = List.replicate ((pixelPairs img.width img.height).count (px, py)) (px, py) := by
      have hcong : ∀ p ∈ pixelPairs img.width img.height,
          decide (0 < img.alphaAt p.1 p.2) = (p == (px, py)) := by
        intro p hp
        obtain ⟨h1, h2⟩ := mem_pixelPairs.mp hp
        have hiff := h p.1 h1 p.2 h2
        by_cases hpq : p = (px, py)
        · subst hpq
          have : 0 < img.alphaAt (px, py).1 (px, py).2 := hiff.mpr ⟨rfl, rfl⟩
          simp [this]
        · have hno : ¬ 0 < img.alphaAt p.1 p.2 := by
            intro hc
            obtain ⟨e1, e2⟩ := hiff.mp hc
            exact hpq (Prod.ext e1 e2)
          simp [hno, hpq]
      rw [hotPixels, List.filter_congr (q := fun p => p == (px, py)) hcong,
        filter_eq_replicate_count]
    have hmem : (px, py) ∈ pixelPairs img.width img.height :=
      mem_pixelPairs.mpr ⟨hx, hy⟩
    have hk : 0 < (pixelPairs img.width img.height).count (px, py) :=
      List.count_pos_iff.mpr hmem
    obtain ⟨k, hke⟩ := Nat.exists_eq_add_of_lt hk
    rw [hfil, show (pixelPairs img.width img.height).count (px, py) = k + 1 from by omega,
      foldl_min_replicate, foldl_min_replicate, foldl_max_replicate, foldl_max_replicate]
    have e1 : min img.width (px, py).1 = px := min_eq_right (Nat.le_of_lt hx)
    have e2 : min img.height (px, py).2 = py := min_eq_right (Nat.le_of_lt hy)
    have e3 : max 0 (px, py).1 = px := max_eq_right (Nat.zero_le _)
    have e4 : max 0 (px, py).2 = py := max_eq_right (Nat.zero_le _)
    rw [e1, e2, e3, e4]
    simp
  refine ⟨hbox, ?_⟩
  have hvb : validBoxesOf [img] = [] := by
    simp [validBoxesOf, hbox]
  simp [analyzeDimensions, hvb]

/-- Claim C10, witness: a 2 by 2 mask whose only opaque pixel is (0, 0)
yields the degenerate box and the default dimensions. -/
theorem claim_C10_witness :
    (0 < img1px.width ∧ 0 < img1px.height
        ∧ ∀ x, x < img1px.width → ∀ y, y < img1px.height →
          (0 < img1px.alphaAt x y ↔ (x = 0 ∧ y = 0)))
      ∧ getObjectBounds img1px = ⟨0, 0, 0, 0⟩
      ∧ analyzeDimensions [img1px] = ⟨100, 80, 50⟩ :=
  ⟨⟨by decide, by decide, by decide⟩,
    claim_C10 img1px 0 0 (by decide) (by decide) (by decide)⟩

/-! Claim C3. -/

/-- Characterization of `jsRound` by floor bounds. -/
theorem jsRound_eq {q : ℚ} {n : ℤ} (h1 : (n : ℚ) ≤ q + 1/2) (h2 : q + 1/2 < n + 1) :
    jsRound q = n := by
  unfold jsRound
  exact Int.floor_eq_iff.mpr ⟨h1, h2⟩

/-- A running-sum fold equals the initial value plus the list sum. -/
theorem foldl_add_eq_sum {α : Type} (f : α → ℚ) :
    ∀ (l : List α) (a : ℚ), l.foldl (fun s d => s + f d) a = a + (l.map f).sum := by
  intro l
  induction l with
  | nil => intro a; simp
  | cons b t ih =>
    intro a
    rw [List.foldl_cons, ih, List.map_cons, List.sum_cons]
    ring

/-- Claim C3, counterexample: with two views of confidence 0.5 and
reference heights 95 and 220, the combined height is the rounded value
158, not the exact confidence-weighted mean 157.5. -/
theorem claim_C3_counterexample :
    ((combineDimensions [⟨80, 95, 80, 1/2⟩, ⟨70, 220, 70, 1/2⟩]).height : ℚ)
      ≠ (95 * (1/2) + 220 * (1/2)) / (1/2 + 1/2) := by
  have e : (combineDimensions [⟨80, 95, 80, 1/2⟩, ⟨70, 220, 70, 1/2⟩]).height = 158 := by
    simp only [combineDimensions, List.foldl_cons, List.foldl_nil]
    apply jsRound_eq <;> norm_num
  rw [e]
  norm_num

/-- Claim C3 (amended): when reference detections are available, the
estimator combines the views by the confidence-weighted mean rounded
with `Math.round` per axis
(`combined.width = round(sum(width_i * conf_i) / sum(conf_i))`, same for
height and depth), with combined confidence `min(1, max(conf_i, 0))`;
for a single view of confidence 1.0 with the reference dims of `"cup"`
(80, 95, 80), the rounding is the identity and the combined result is
exactly (80, 95, 80) with confidence 1. -/
theorem claim_C3 :
    (∀ ds : List ViewDims, combineDimensions ds = combineDimensionsSpec ds)
      ∧ REFERENCE_OBJECTS "cup" = some (80, 95, 80)
      ∧ combineDimensions [⟨80, 95, 80, 1⟩] = ⟨80, 95, 80, 1⟩ := by
  refine ⟨fun ds => ?_, rfl, ?_⟩
  · simp only [combineDimensions, combineDimensionsSpec]
    rw [foldl_add_eq_sum (fun d => d.confidence) ds 0,
      foldl_add_eq_sum (fun d => d.width * d.confidence) ds 0,
      foldl_add_eq_sum (fun d => d.height * d.confidence) ds 0,
      foldl_add_eq_sum (fun d => d.depth * d.confidence) ds 0,
      List.foldl_map]
    simp only [zero_add]
  · simp only [combineDimensions, List.foldl_cons, List.foldl_nil]
    have e1 : jsRound ((0 + 80 * 1) / (0 + 1) : ℚ) = 80 := by
      apply jsRound_eq <;> norm_num
    have e2 : jsRound ((0 + 95 * 1) / (0 + 1) : ℚ) = 95 := by
      apply jsRound_eq <;> norm_num
    rw [e1, e2]
    norm_num

/-! Claim C4. -/

/-- Claim C4, counterexample: with exactly 2500 extracted surface points
(half of the target count K = 5000), the sampler does not use the
surface-biased strategy, refuting "whenever the surface-point count is
at least K/2 the surface-biased strategy is used". -/
theorem claim_C4_counterexample :
    pointCount / 2 ≤ (List.replicate 2500 ((0, 0, 0) : ℝ × ℝ × ℝ)).length
      ∧ ¬ usesSurfaceStrategy (List.replicate 2500 ((0, 0, 0) : ℝ × ℝ × ℝ)) := by
  constructor
  · rw [List.length_replicate]
    norm_num [pointCount]
  · simp only [usesSurfaceStrategy, pointCount, List.length_replicate]
    norm_num

/-- Claim C4 (amended): the sampler uses the surface-biased strategy
exactly when the surface-point count strictly exceeds K/2 = 2500;
equivalently, it falls back to the feature-guided strategy exactly when
the count is at most K/2 (in particular at exactly K/2). -/
theorem claim_C4 (sps : List (ℝ × ℝ × ℝ)) :
    usesSurfaceStrategy sps ↔ pointCount / 2 < sps.length := by
  simp only [usesSurfaceStrategy, pointCount]
  rw [show ((5000 : ℕ) : ℚ) * 0.5 = ((2500 : ℕ) : ℚ) from by norm_num]
  exact ⟨fun h => by exact_mod_cast h, fun h => by exact_mod_cast h⟩

/-! Claim C6. -/

/-- Unfolding of `listMax` on a cons cell. -/
theorem listMax_cons (b : ℤ) (t : List ℤ) : listMax (b :: t) = max b (listMax t) := rfl

/-- Every member is bounded by `listMax`. -/
theorem le_listMax {a : ℤ} : ∀ {l : List ℤ}, a ∈ l → a ≤ listMax l := by
  intro l
  induction l with
  | nil => intro h; cases h
  | cons b t ih =>
    intro h
    rw [listMax_cons]
    rcases List.mem_cons.mp h with rfl | hm
    · exact le_max_left _ _
    · exact le_trans (ih hm) (le_max_right _ _)

/-- `listMax` is at most any upper bound that also dominates 0. -/
theorem listMax_le {x : ℤ} (hx : 0 ≤ x) :
    ∀ {l : List ℤ}, (∀ a ∈ l, a ≤ x) → listMax l ≤ x := by
  intro l
  induction l with
  | nil => intro _; exact hx
  | cons b t ih =>
    intro h
    rw [listMax_cons]
    exact max_le (h b (List.mem_cons_self _ _)) (ih fun a ha => h a (List.mem_cons_of_mem _ ha))

/-- A cons cell whose head dominates the tail has the head as max. -/
theorem listMax_cons_eq {x : ℤ} {t : List ℤ} (hx : 0 ≤ x) (h : ∀ a ∈ t, a ≤ x) :
    listMax (x :: t) = x := by
  rw [listMax_cons]
  exact max_eq_left (listMax_le hx h)

/-- `listMax` only depends on the multiset of elements. -/
theorem listMax_perm : ∀ {l l' : List ℤ}, l.Perm l' → listMax l = listMax l' := by
  intro l l' h
  induction h with
  | nil => rfl
  | cons a _ ih => rw [listMax_cons, listMax_cons, ih]
  | swap a b t => rw [listMax_cons, listMax_cons, listMax_cons, listMax_cons, max_left_comm]
  | trans _ _ ih1 ih2 => exact ih1.trans ih2

/-- The head of the descending-width sort of a list of positive-width
boxes carries the maximal width. -/
theorem head_width_eq_listMax (vb : List Box) (hne : vb ≠ [])
    (hpos : ∀ b ∈ vb, 0 < b.width) :
    ((vb.insertionSort byWidthDesc).getD 0 default).width = listMax (vb.map Box.width) := by
  have hlen : (vb.insertionSort byWidthDesc).length = vb.length :=
    List.length_insertionSort _ _
  have hperm : (vb.insertionSort byWidthDesc).Perm vb := List.perm_insertionSort _ _
  have hsorted : List.Sorted byWidthDesc (vb.insertionSort byWidthDesc) :=
    List.sorted_insertionSort _ _
  rcases hSe : vb.insertionSort byWidthDesc with _ | ⟨b0, t⟩
  · exfalso
    rw [hSe] at hlen
    exact hne (List.length_eq_zero.mp hlen.symm)
  · rw [hSe] at hperm hsorted
    have hmem0 : b0 ∈ vb := hperm.mem_iff.mp (List.mem_cons_self _ _)
    have hdom : ∀ a ∈ t.map Box.width, a ≤ b0.width := by
      intro a ha
      obtain ⟨b, hb, rfl⟩ := List.mem_map.mp ha
      exact (List.sorted_cons.mp hsorted).1 b hb
    rw [List.getD_cons_zero,
      listMax_perm ((hperm.map Box.width).symm), List.map_cons,
      listMax_cons_eq (le_of_lt (hpos b0 hmem0)) hdom]

/-- The head of the descending-height sort of a list of positive-height
boxes carries the maximal height. -/
theorem head_height_eq_listMax (vb : List Box) (hne : vb ≠ [])
    (hpos : ∀ b ∈ vb, 0 < b.height) :
    ((vb.insertionSort byHeightDesc).getD 0 default).height = listMax (vb.map Box.height) := by
  have hlen : (vb.insertionSort byHeightDesc).length = vb.length :=
    List.length_insertionSort _ _
  have hperm : (vb.insertionSort byHeightDesc).Perm vb := List.perm_insertionSort _ _
  have hsorted : List.Sorted byHeightDesc (vb.insertionSort byHeightDesc) :=
    List.sorted_insertionSort _ _
  rcases hSe : vb.insertionSort byHeightDesc with _ | ⟨b0, t⟩
  · exfalso
    rw [hSe] at hlen
    exact hne (List.length_eq_zero.mp hlen.symm)
  · rw [hSe] at hperm hsorted
    have hmem0 : b0 ∈ vb := hperm.mem_iff.mp (List.mem_cons_self _ _)
    have hdom : ∀ a ∈ t.map Box.height, a ≤ b0.height := by
      intro a ha
      obtain ⟨b, hb, rfl⟩ := List.mem_map.mp ha
      exact (List.sorted_cons.mp hsorted).1 b hb
    rw [List.getD_cons_zero,
      listMax_perm ((hperm.map Box.height).symm), List.map_cons,
      listMax_cons_eq (le_of_lt (hpos b0 hmem0)) hdom]

/-- The second element of the descending-width sort carries the
second-largest width (the max after erasing one copy of the max). -/
theorem second_width_eq_secondMax (vb : List Box) (h2 : 2 ≤ vb.length)
    (hpos : ∀ b ∈ vb, 0 < b.width) :
    ((vb.insertionSort byWidthDesc).getD 1 default).width = secondMax (vb.map Box.width) := by
  have hne : vb ≠ [] := by
    intro h
    rw [h] at h2
    simp at h2
  have hlen : (vb.insertionSort byWidthDesc).length = vb.length :=
    List.length_insertionSort _ _
  have hperm : (vb.insertionSort byWidthDesc).Perm vb := List.perm_insertionSort _ _
  have hsorted : List.Sorted byWidthDesc (vb.insertionSort byWidthDesc) :=
    List.sorted_insertionSort _ _
  have hhead := head_width_eq_listMax vb hne hpos
  rcases hSe : vb.insertionSort byWidthDesc with _ | ⟨b0, t⟩
  · exfalso
    rw [hSe] at hlen
    exact hne (List.length_eq_zero.mp hlen.symm)
  rcases t with _ | ⟨b1, t'⟩
  · exfalso
    rw [hSe] at hlen
    simp at hlen
    omega
  rw [hSe] at hperm hsorted hhead
  have hmem1 : b1 ∈ vb := hperm.mem_iff.mp (List.mem_cons_of_mem _ (List.mem_cons_self _ _))
  have hM : listMax (vb.map Box.width) = b0.width := by
    rw [← hhead, List.getD_cons_zero]
  have hperase : ((vb.map Box.width).erase b0.width).Perm (b1.width :: t'.map Box.width) := by
    have h1 : ((vb.map Box.width).erase b0.width).Perm
        (((b0 :: b1 :: t').map Box.width).erase b0.width) :=
      List.Perm.erase _ ((hperm.map Box.width).symm)
    rw [List.map_cons, List.erase_cons_head, List.map_cons] at h1
    exact h1
  have hsorted1 : List.Sorted byWidthDesc (b1 :: t') := (List.sorted_cons.mp hsorted).2
  have hdom1 : ∀ a ∈ t'.map Box.width, a ≤ b1.width := by
    intro a ha
    obtain ⟨b, hb, rfl⟩ := List.mem_map.mp ha
    exact (List.sorted_cons.mp hsorted1).1 b hb
  rw [List.getD_cons_succ, List.getD_cons_zero, secondMax, hM, listMax_perm hperase,
    listMax_cons_eq (le_of_lt (hpos b1 hmem1)) hdom1]

/-- Claim C6, counterexample: in a two-view batch whose first view has a
one-row mask (box width 5, height 0, hence invalid), the estimated width
is 3, the maximal valid width, not the maximal bounding-box width 5
across all views; and in a single-view batch with a 3 by 3 box, the
returned depth is the rounded value 2, not `0.8 * width = 2.4`. -/
theorem claim_C6_counterexample :
    (analyzeDimensions [imgRow, imgSq]).width
        ≠ listMax (([imgRow, imgSq].map getObjectBounds).map Box.width)
      ∧ ((analyzeDimensions [imgSq]).depth : ℚ)
        ≠ ((analyzeDimensions [imgSq]).width : ℚ) * 0.8 := by
  have e2 : analyzeDimensions [imgSq] = ⟨3, 3, 2⟩ := by
    unfold analyzeDimensions
    rw [show validBoxesOf [imgSq] = [⟨0, 0, 3, 3⟩] from by decide]
    simp only [List.insertionSort, List.orderedInsert, List.getD_cons_zero, List.length_cons,
      List.length_nil, Dims3.mk.injEq, if_neg (by simp : ¬([(⟨0, 0, 3, 3⟩ : Box)] = [])),
      if_neg (by norm_num : ¬(1 < 0 + 1))]
    refine ⟨?_, ?_, ?_⟩ <;> apply jsRound_eq <;> norm_num
  have e1 : analyzeDimensions [imgRow, imgSq] = ⟨3, 3, 2⟩ := by
    unfold analyzeDimensions
    rw [show validBoxesOf [imgRow, imgSq] = [⟨0, 0, 3, 3⟩] from by decide]
    simp only [List.insertionSort, List.orderedInsert, List.getD_cons_zero, List.length_cons,
      List.length_nil, Dims3.mk.injEq, if_neg (by simp : ¬([(⟨0, 0, 3, 3⟩ : Box)] = [])),
      if_neg (by norm_num : ¬(1 < 0 + 1))]
    refine ⟨?_, ?_, ?_⟩ <;> apply jsRound_eq <;> norm_num
  refine ⟨?_, ?_⟩
  · rw [e1, show listMax (([imgRow, imgSq].map getObjectBounds).map Box.width) = 5 from by
      decide]
    decide
  · rw [e2]
    norm_num

/-- Claim C6 (amended): when only bounding boxes are available, the
estimate is computed over the valid boxes (width > 0 and height > 0)
only, and each component is rounded with `Math.round`: the width is the
maximal valid-box width, the height the maximal valid-box height, and
the depth is the second-largest valid-box width when at least two valid
boxes exist, else `Math.round(0.8 * width)`. -/
theorem claim_C6 (masks : List RasterImage) (hne : validBoxesOf masks ≠ []) :
    analyzeDimensions masks
      = ⟨listMax ((validBoxesOf masks).map Box.width),
         listMax ((validBoxesOf masks).map Box.height),
         if 2 ≤ (validBoxesOf masks).length
           then secondMax ((validBoxesOf masks).map Box.width)
           else jsRound ((listMax ((validBoxesOf masks).map Box.width) : ℚ) * 0.8)⟩ := by
  have hpos : ∀ b ∈ validBoxesOf masks, 0 < b.width ∧ 0 < b.height := by
    intro b hb
    have := List.of_mem_filter hb
    simpa using this
  have hw := head_width_eq_listMax (validBoxesOf masks) hne (fun b hb => (hpos b hb).1)
  have hh := head_height_eq_listMax (validBoxesOf masks) hne (fun b hb => (hpos b hb).2)
  simp only [analyzeDimensions, if_neg hne]
  rw [hw, hh, jsRound_intCast, jsRound_intCast]
  by_cases hlen : 2 ≤ (validBoxesOf masks).length
  · rw [if_pos (by rw [List.length_insertionSort]; omega), if_pos hlen,
      second_width_eq_secondMax (validBoxesOf masks) hlen (fun b hb => (hpos b hb).1),
      jsRound_intCast]
  · rw [if_neg (by rw [List.length_insertionSort]; omega), if_neg hlen]

/-- Claim C6, witness: the single-view batch with the 3 by 3 box. -/
theorem claim_C6_witness :
    validBoxesOf [imgSq] ≠ []
      ∧ analyzeDimensions [imgSq]
        = ⟨listMax ((validBoxesOf [imgSq]).map Box.width),
           listMax ((validBoxesOf [imgSq]).map Box.height),
           if 2 ≤ (validBoxesOf [imgSq]).length
             then secondMax ((validBoxesOf [imgSq]).map Box.width)
             else jsRound ((listMax ((validBoxesOf [imgSq]).map Box.width) : ℚ) * 0.8)⟩ :=
  ⟨by decide, claim_C6 [imgSq] (by decide)⟩

/-! Claim C7. -/

/-- Claim C7 (confirmed): for every input image and every maxPoints, the
sequence returned by `extractFeaturePoints` is sorted by non-increasing
confidence and has length at most maxPoints. -/
theorem claim_C7 (img : RasterImage) (maxPoints : ℕ) :
    List.Sorted byConfDesc (extractFeaturePoints img maxPoints)
      ∧ (extractFeaturePoints img maxPoints).length ≤ maxPoints := by
  constructor
  · exact List.Pairwise.sublist (List.take_sublist _ _)
      (List.sorted_insertionSort byConfDesc (featureCandidates img maxPoints))
  · exact List.length_take_le _ _

/-! Claim C8. -/

/-- Entry lookup in the edge map: the in-range entries of `detectEdges`
are the `edgeAtIdx` values, out-of-range lookups default to 0. -/
theorem detectEdges_getD (img : RasterImage) (i : ℕ) :
    (detectEdges img).getD i 0
      = if i < img.width * img.height then edgeAtIdx img i else 0 := by
  unfold detectEdges
  rw [List.getD_eq_getElem?_getD, List.getElem?_map]
  rcases Nat.lt_or_ge i (img.width * img.height) with h | h
  · rw [if_pos h, List.getElem?_range h]
    rfl
  · rw [if_neg (Nat.not_lt.mpr h), List.getElem?_eq_none (by simpa using h)]
    rfl

/-- Claim C8 (confirmed): `detectEdges` always succeeds and returns a
map with exactly width*height entries; for any image the outer 1-pixel
border ring is zero (so in particular for every image of size at least
3 by 3), and for an image with width < 3 or height < 3 every entry of
the returned map is zero. -/
theorem claim_C8 (img : RasterImage) :
    (detectEdges img).length = img.width * img.height
      ∧ (∀ x y, x < img.width → y < img.height →
          (x = 0 ∨ y = 0 ∨ x + 1 = img.width ∨ y + 1 = img.height) →
          (detectEdges img).getD (y * img.width + x) 0 = 0)
      ∧ ((img.width < 3 ∨ img.height < 3) →
          ∀ i, (detectEdges img).getD i 0 = 0) := by
  refine ⟨by simp [detectEdges], ?_, ?_⟩
  · intro x y hx hy hborder
    have hw : 0 < img.width := Nat.pos_of_ne_zero (by omega)
    have hidx : y * img.width + x < img.width * img.height := by
      have h1 : y * img.width + x < (y + 1) * img.width := by
        rw [Nat.succ_mul]
        omega
      have h2 : (y + 1) * img.width ≤ img.height * img.width :=
        Nat.mul_le_mul_right _ hy
      rw [Nat.mul_comm img.width img.height]
      omega
    rw [detectEdges_getD, if_pos hidx]
    unfold edgeAtIdx
    rw [show (y * img.width + x) % img.width = x from by
        rw [Nat.mul_comm, Nat.mul_add_mod, Nat.mod_eq_of_lt hx],
      show (y * img.width + x) / img.width = y from by
        rw [Nat.mul_comm, Nat.mul_add_div (by omega), Nat.div_eq_of_lt hx, Nat.add_zero]]
    unfold edgeAt
    rw [if_neg]
    omega
  · intro hsmall i
    rw [detectEdges_getD]
    rcases Nat.lt_or_ge i (img.width * img.height) with h | h
    · rw [if_pos h]
      unfold edgeAtIdx edgeAt
      rw [if_neg]
      intro hcond
      have h1 := hcond.1
      have h2 := hcond.2.1
      have h3 := hcond.2.2.1
      have h4 := hcond.2.2.2
      have hxw : 1 ≤ i % img.width ∧ i % img.width + 1 < img.width := ⟨h1, h2⟩
      have hyh : 1 ≤ i / img.width ∧ i / img.width + 1 < img.height := ⟨h3, h4⟩
      omega
    · rw [if_neg (Nat.not_lt.mpr h)]

/-- Claim C8, witness: at the 3 by 3 black image the border entry (0, 0)
of the full-size edge map is zero, and at the 2 by 2 transparent mask
(width below 3) every entry, e.g. entry 1, is zero. -/
theorem claim_C8_witness :
    (detectEdges img3).length = img3.width * img3.height
      ∧ ((0 : ℕ) < img3.width ∧ (0 : ℕ) < img3.height)
      ∧ (detectEdges img3).getD 0 0 = 0
      ∧ imgT2.width < 3
      ∧ (detectEdges imgT2).getD 1 0 = 0 :=
  ⟨(claim_C8 img3).1, ⟨by decide, by decide⟩,
    (claim_C8 img3).2.1 0 0 (by decide) (by decide) (Or.inl rfl),
    by decide,
    (claim_C8 imgT2).2.2 (Or.inl (by decide)) 1⟩

/-! Claim C5. -/

/-- Any coordinate at least 1 is clamped to 1 by the density-grid
indexing and mapped to the last cell. -/
theorem densityIx_of_one_le {q : ℚ} (h : 1 ≤ q) (gs : ℕ) :
    densityIx q gs = (gs : ℤ) - 1 := by
  unfold densityIx
  rw [max_eq_left (le_trans zero_le_one h), min_eq_right h, one_mul, Int.floor_natCast]
  exact min_eq_right (by omega)

/-- Any coordinate at least 1 lands in the last histogram bin. -/
theorem featureBin_of_one_le {q : ℚ} (h : 1 ≤ q) (gs : ℕ) :
    featureBin q gs = (gs : ℤ) - 1 := by
  unfold featureBin
  apply min_eq_right
  rw [Int.le_floor]
  push_cast
  have hgs : (0 : ℚ) ≤ (gs : ℚ) := by positivity
  have : (gs : ℚ) ≤ q * gs := le_mul_of_one_le_left hgs h
  linarith

/-- Loop values of a strided `for` loop never fall below the start. -/
theorem strideRange_start_le {s e st a : ℕ} (h : a ∈ strideRange s e st) : s ≤ a := by
  unfold strideRange at h
  obtain ⟨k, _, rfl⟩ := List.mem_map.mp h
  exact Nat.le_add_right _ _

/-- Every feature produced by `extractFeaturePoints` has raw pixel
coordinates at least `windowSize` = 5 on both axes. -/
theorem extractFeaturePoints_mem_coord {img : RasterImage} {mp : ℕ} {f : FeaturePoint}
    (hf : f ∈ extractFeaturePoints img mp) :
    (windowSize : ℚ) ≤ f.x ∧ (windowSize : ℚ) ≤ f.y := by
  unfold extractFeaturePoints at hf
  have hf1 : f ∈ (featureCandidates img mp).insertionSort byConfDesc :=
    List.take_subset _ _ hf
  have hf2 : f ∈ featureCandidates img mp :=
    (List.perm_insertionSort _ _).mem_iff.mp hf1
  unfold featureCandidates at hf2
  obtain ⟨y, hy, hf3⟩ := List.mem_flatMap.mp hf2
  obtain ⟨x, hx, hf4⟩ := List.mem_filterMap.mp hf3
  by_cases hc : edgeAtIdx img (y * img.width + x) > 0.1 ∧ isLocalMax img x y = true
  · rw [if_pos hc] at hf4
    have he := Option.some.inj hf4
    rw [← he]
    constructor
    · show (windowSize : ℚ) ≤ ((x : ℕ) : ℚ)
      exact_mod_cast strideRange_start_le hx
    · show (windowSize : ℚ) ≤ ((y : ℕ) : ℚ)
      exact_mod_cast strideRange_start_le hy
  · rw [if_neg hc] at hf4
    exact absurd hf4 (by simp)

/-- Claim C5 (confirmed): every feature produced by
`extractFeaturePoints` keeps its raw pixel coordinates, which are at
least 1 on both axes, and the feature pool of `generatePointCloud`
passes them to the density builders unnormalized; `createDensityGrid`
clamps coordinates into [0, 1] before indexing, so every such feature is
splatted centered at grid indices `ix = iy = gridSize - 1`, and
`createFeatureDensity` puts every such feature into the last histogram
bin; in general any coordinate at least 1 maps to cell `gridSize - 1`
and bin `gridSize - 1`. -/
theorem claim_C5 :
    (∀ (img : RasterImage) (maxPoints : ℕ),
        (extractFeaturePoints img maxPoints).Forall
          (fun f => 1 ≤ f.x ∧ 1 ≤ f.y
            ∧ densityIx f.x gridSize = (gridSize : ℤ) - 1
            ∧ densityIx f.y gridSize = (gridSize : ℤ) - 1
            ∧ featureBin f.x gridSize = (gridSize : ℤ) - 1
            ∧ featureBin f.y gridSize = (gridSize : ℤ) - 1))
      ∧ (∀ images : List RasterImage,
          (pooledFeatures images).Forall
            (fun f => densityIx f.x gridSize = (gridSize : ℤ) - 1
              ∧ densityIx f.y gridSize = (gridSize : ℤ) - 1
              ∧ featureBin f.x gridSize = (gridSize : ℤ) - 1
              ∧ featureBin f.y gridSize = (gridSize : ℤ) - 1))
      ∧ (∀ q : ℚ, 1 ≤ q →
          densityIx q gridSize = (gridSize : ℤ) - 1
            ∧ featureBin q gridSize = (gridSize : ℤ) - 1) := by
  have hwin : (1 : ℚ) ≤ (windowSize : ℚ) := by norm_num [windowSize]
  refine ⟨fun img maxPoints => ?_, fun images => ?_, fun q hq => ?_⟩
  · rw [List.forall_iff_forall_mem]
    intro f hf
    obtain ⟨hxx, hyy⟩ := extractFeaturePoints_mem_coord hf
    have h1x : (1 : ℚ) ≤ f.x := le_trans hwin hxx
    have h1y : (1 : ℚ) ≤ f.y := le_trans hwin hyy
    exact ⟨h1x, h1y, densityIx_of_one_le h1x _, densityIx_of_one_le h1y _,
      featureBin_of_one_le h1x _, featureBin_of_one_le h1y _⟩
  · rw [List.forall_iff_forall_mem]
    intro f hf
    obtain ⟨im, _, hfm⟩ := List.mem_flatMap.mp hf
    obtain ⟨hxx, hyy⟩ := extractFeaturePoints_mem_coord hfm
    have h1x : (1 : ℚ) ≤ f.x := le_trans hwin hxx
    have h1y : (1 : ℚ) ≤ f.y := le_trans hwin hyy
    exact ⟨densityIx_of_one_le h1x _, densityIx_of_one_le h1y _,
      featureBin_of_one_le h1x _, featureBin_of_one_le h1y _⟩
  · exact ⟨densityIx_of_one_le hq _, featureBin_of_one_le hq _⟩

/-- Claim C5, witness: the coordinate 2 (at least 1) maps to cell 19 and
bin 19 of the 20-cell grid. -/
theorem claim_C5_witness :
    (1 ≤ (2 : ℚ)) ∧ densityIx 2 gridSize = (gridSize : ℤ) - 1
      ∧ featureBin 2 gridSize = (gridSize : ℤ) - 1 :=
  ⟨by norm_num, (claim_C5.2.2 2 (by norm_num)).1, (claim_C5.2.2 2 (by norm_num)).2⟩

/-! Claim C9. -/

/-- A single splat contribution is non-negative whenever the feature's
confidence is. -/
theorem splatContribution_nonneg {f : FeaturePoint} (hf : (0 : ℝ) ≤ f.conf)
    (gs : ℕ) (x y z : ℕ) : 0 ≤ splatContribution gs f x y z := by
  unfold splatContribution
  dsimp only
  split
  · apply mul_nonneg
    · unfold confW
      split
      · exact zero_le_one
      · exact hf
    · exact le_of_lt (Real.exp_pos _)
  · exact le_refl 0

/-- Claim C9 (confirmed): for every feature list with non-negative
confidences, every cell of the density grid is non-negative both after
splatting (`splatGrid`) and after the single smoothing pass of
`applyVolumetricConstraints` (`createDensityGrid`), the latter being a
convex combination of non-negative values. -/
theorem claim_C9 (gs : ℕ) (features : List FeaturePoint)
    (h : ∀ f ∈ features, (0 : ℝ) ≤ f.conf) :
    ∀ x y z, 0 ≤ splatGrid gs features x y z
      ∧ 0 ≤ createDensityGrid gs features x y z := by
  have hsplat : ∀ x y z, 0 ≤ splatGrid gs features x y z := by
    intro x y z
    apply List.sum_nonneg
    intro r hr
    obtain ⟨f, hf, rfl⟩ := List.mem_map.mp hr
    exact splatContribution_nonneg (h f hf) gs x y z
  intro x y z
  refine ⟨hsplat x y z, ?_⟩
  unfold createDensityGrid applyVolumetricConstraints
  split
  · have hns : 0 ≤ neighborhoodSum (splatGrid gs features) x y z := by
      apply Finset.sum_nonneg
      intro i _
      apply Finset.sum_nonneg
      intro j _
      apply Finset.sum_nonneg
      intro k _
      exact hsplat _ _ _
    have h0 := hsplat x y z
    have e1 : (0 : ℝ) ≤ 0.7 * splatGrid gs features x y z := by
      apply mul_nonneg (by norm_num) h0
    have e2 : (0 : ℝ) ≤ 0.3 * (neighborhoodSum (splatGrid gs features) x y z / 27) := by
      apply mul_nonneg (by norm_num) (div_nonneg hns (by norm_num))
    linarith
  · exact hsplat x y z

/-- Claim C9, witness: the one-feature list with confidence 1/2 has
non-negative confidences and non-negative grid cells, e.g. at the
origin cell. -/
theorem claim_C9_witness :
    (∀ f ∈ feats9, (0 : ℝ) ≤ f.conf)
      ∧ 0 ≤ splatGrid gridSize feats9 0 0 0
      ∧ 0 ≤ createDensityGrid gridSize feats9 0 0 0 := by
  have hconf : ∀ f ∈ feats9, (0 : ℝ) ≤ f.conf := by
    intro f hf
    rw [feats9, List.mem_singleton] at hf
    subst hf
    norm_num
  exact ⟨hconf, claim_C9 gridSize feats9 hconf 0 0 0⟩

end Prompt2Cad
